import Mathlib

/-!
Verification of the LinkedQL registry and decoder
(source: query/linkedql/registry.go).

The Go source is shallowly embedded:

* JSON wire data (what a json.RawMessage holds once it is known to be
  well-formed JSON) is the inductive type JSON.  A JSON number carries the
  exact rational value of the float64 that encoding/json produces for it
  (encoding/json decodes every JSON number into a float64 when the target
  is interface, and every float64 is exactly a rational).
* Go interface values produced by json.Unmarshal into interface are the
  inductive type GoAny.  It also has constructors for the two dynamic types
  that parseValue can receive from other call sites: int64 (GoAny.int) and
  json.RawMessage (GoAny.raw).
* quad.Value (an external vocabulary the decoder only constructs) is the
  inductive type QuadValue, one constructor per variant the source builds.
* The global registry (typeByName / nameByType) is explicit state RegState;
  Register returns the new state together with an optional panic message;
  a panic happens before any mutation, so the state component equals the
  input state whenever the message is some.
* reflect-driven field walking is embedded as a ShapeDescriptor table:
  GoType lists the struct fields in declaration order, each with the Go
  field name, the first comma-piece of its json struct tag, and the kind
  the source dispatches on (f.Type = quad.Value, f.Type = Go slice of
  quad.Value, interface kind, slice kind with interface or non-interface
  element, or the default scalar case).
* Unmarshal is embedded as unmarshalF with an explicit fuel argument that
  bounds the recursion depth; fuel is consumed only at nested Unmarshal
  calls, and sizeOf of the input strictly bounds its nesting depth, so the
  wrapper Unmarshal never exhausts it.
* Decoding into fields of externally-defined scalar types is delegated by
  the source to encoding/json; the model stores the raw JSON sub-value for
  such fields (FieldVal.scalarV).  An unassigned field keeps its Go zero
  value, modelled as none.
-/

/-- A well-formed JSON document, as held by a json.RawMessage.
Objects model the decoded Go map, so keys are unique in real inputs. -/
inductive JSON where
  | str (s : String)
  | num (q : ℚ)
  | bool (b : Bool)
  | null
  | arr (elems : List JSON)
  | obj (members : List (String × JSON))
deriving Repr

/-- A Go interface value as parseValue can receive it: the results of
json.Unmarshal into interface (str, float, bool, obj, arr, null), plus the
dynamic types int64 and json.RawMessage that other call sites could pass.
encoding/json never produces GoAny.int: all JSON numbers decode to float64. -/
inductive GoAny where
  | str (s : String)
  | int (n : ℤ)
  | float (q : ℚ)
  | bool (b : Bool)
  | obj (members : List (String × GoAny))
  | arr (elems : List GoAny)
  | null
  | raw (j : JSON)
deriving Repr

/-- The quad.Value variants the decoder constructs (IRIs kept as strings). -/
inductive QuadValue where
  | str (s : String)
  | typedString (v : String) (t : String)
  | langString (v : String) (lang : String)
  | iri (s : String)
  | bnode (s : String)
deriving Repr, DecidableEq

def xsd : String := "http://www.w3.org/2001/XMLSchema#"

def xsdInt : String := xsd ++ "integer"

def xsdFloat : String := xsd ++ "float"

def xsdBool : String := xsd ++ "boolean"

/-- Decimal digit as a character. -/
def digitChar (d : ℕ) : Char := Char.ofNat (48 + d)

/-- Decimal digits of n, most significant first; empty for 0.
Structural in the fuel argument so that it reduces in the kernel; any
fuel of at least the digit count of n gives the full rendering. -/
def natCharsAux : ℕ → ℕ → List Char
  | 0, _ => []
  | fuel + 1, n => if n = 0 then [] else natCharsAux fuel (n / 10) ++ [digitChar (n % 10)]

/-- Decimal rendering of a natural number, as fmt prints it. -/
def natChars (n : ℕ) : List Char :=
  if n = 0 then ['0'] else natCharsAux (n + 1) n

/-- The magnitude scaled by 10^6 and rounded to nearest that fmt's
percent-f formatting of a float64 prints, written on numerator and
denominator so that it computes by integer arithmetic alone.  Exact ties
at the sixth decimal round to even, as Go's strconv does; such ties do
occur among float64 values (exactly the odd multiples of 2 to the -7,
such as 0.0078125, which Go prints as "0.007812"). -/
def f6n (q : ℚ) : ℕ :=
  let scaled := q.num.natAbs * 1000000
  let lo := scaled / q.den
  let rem := scaled % q.den
  if 2 * rem < q.den then lo
  else if 2 * rem = q.den then (if lo % 2 = 0 then lo else lo + 1)
  else lo + 1

/-- Integer part of the percent-f rendering, sign included. -/
def f6int (q : ℚ) : String :=
  String.mk ((if q < 0 then ['-'] else []) ++ natChars (f6n q / 1000000))

/-- Fractional part of the percent-f rendering: exactly six digits. -/
def pad6chars (k : ℕ) : List Char :=
  List.replicate (6 - (natChars k).length) '0' ++ natChars k

/-- Fractional part of the percent-f rendering of q. -/
def f6frac (q : ℚ) : String := String.mk (pad6chars (f6n q % 1000000))

/-- fmt.Sprintf with the percent-f verb on a float64: fixed six fractional
digits, exact ties rounded to even.  One inherent limit of the rational
embedding: ℚ has no negative zero, so the float64 -0.0 (which Go prints
as "-0.000000") is identified with 0.0 and rendered "0.000000"; every
other float64 value is represented exactly and rendered as Go does. -/
def format6 (q : ℚ) : String := f6int q ++ "." ++ f6frac q

/-- The Go conversion of an int64 to a string type (as quad.String(a) does
at source line 148): the UTF-8 encoding of the code point, or the
replacement character U+FFFD when the value is not a valid rune. -/
def goIntToString (a : ℤ) : String :=
  if (0 ≤ a ∧ a < 0xD800) ∨ (0xDFFF < a ∧ a ≤ 0x10FFFF) then
    String.mk [Char.ofNat a.toNat]
  else
    "�"

/-- Decoder errors.  DErr.json stands for any error produced by
encoding/json (message strings abbreviated); DErr.unsupportedItem is the
unsupported-item error of source line 50, carrying the unknown name;
DErr.cannotParse is the cannot-parse-JSON-LD-value error of source line
171, carrying the offending value just as its format string does.
DErr.fuel is a model artifact: recursion budget exhausted; the Unmarshal
wrapper supplies a budget larger than any possible nesting depth. -/
inductive DErr where
  | fuel
  | json (msg : String)
  | unsupportedItem (name : String)
  | cannotParse (a : GoAny)
deriving Repr

/-- parseValue of source lines 143-172, including both source slips:
the language-tagged branch returns the literal text "value" instead of the
looked-up text, and the int64 branch applies Go's int-to-string rune
conversion. -/
def parseValue : GoAny → Except DErr QuadValue
  | .str a => .ok (.str a)
  | .int a => .ok (.typedString (goIntToString a) xsdInt)
  | .float a => .ok (.typedString (format6 a) xsdFloat)
  | .bool a => .ok (.typedString (if a then "true" else "false") xsdBool)
  | .obj a =>
    match List.lookup "@id" a with
    | some (.str id) =>
      if id.startsWith "_:" then .ok (.bnode (id.drop 2)) else .ok (.iri id)
    | _ =>
      match List.lookup "@value" a with
      | some (.str _v) =>
        match List.lookup "@language" a with
        | some (.str language) => .ok (.langString "value" language)
        | _ =>
          match List.lookup "@type" a with
          | some (.str t) => .ok (.typedString _v t)
          | _ => .error (.cannotParse (.obj a))
      | _ => .error (.cannotParse (.obj a))
  | a => .error (.cannotParse a)

/-- The kind the field loop of Unmarshal (source lines 53-133) dispatches
on, derived from the reflected field type: quad.Value itself, a Go slice
of quad.Value, an interface type, a slice whose element is an interface, a
slice with non-interface element, or the default scalar case. -/
inductive FieldKind where
  | value
  | valueSeq
  | iface
  | ifaceSlice
  | scalarSlice
  | scalar
deriving Repr, DecidableEq

/-- One struct field of a registered type: the Go field name, the first
comma-piece of its json struct tag (empty when no tag), and its kind. -/
structure FieldSpec where
  fname : String
  tag : String
  kind : FieldKind
deriving Repr, DecidableEq

/-- A registrable Go type: reflect identity (tid), whether the kind after
pointer indirection is struct, the constant its Type method returns
(modelled from the spec: every variant exposes a Type operation returning
its discriminator identity, a per-type constant), and its fields in
declaration order. -/
structure GoType where
  tid : ℕ
  isStruct : Bool
  typeName : String
  fields : List FieldSpec
deriving Repr, DecidableEq

/-- The typeByName half of the registry, which Unmarshal consults. -/
abbrev Registry := List (String × GoType)

/-- The process-wide registry state: both directions of the mapping. -/
structure RegState where
  typeByName : Registry
  nameByType : List (ℕ × String)
deriving Repr, DecidableEq

/-- Register of source lines 18-32.  The second component is the panic
message, if any; a panic fires before either map is touched, so the state
component equals the input state whenever a message is produced. -/
def Register (st : RegState) (t : GoType) : RegState × Option String :=
  if t.isStruct then
    if (List.lookup t.typeName st.typeByName).isSome then
      (st, some "this name was already registered")
    else
      (⟨(t.typeName, t) :: st.typeByName, (t.tid, t.typeName) :: st.nameByType⟩, none)
  else
    (st, some "only structs are allowed")

/- The decoded registry item, together with the values its fields hold.
The fields list is positional, matching the declaration order of the
registered type; none models a field still at its Go zero value (nil for
the interface, slice and quad.Value fields). -/
mutual
inductive Item where
  | mk (typeName : String) (fields : List FieldVal)
inductive FieldVal where
  | scalarV (v : Option JSON)
  | valueV (v : Option QuadValue)
  | valueSeqV (vs : Option (List QuadValue))
  | itemV (it : Option Item)
  | itemSeqV (its : Option (List Item))
end

def Item.typeName : Item → String
  | .mk t _ => t

def Item.fields : Item → List FieldVal
  | .mk _ f => f

/-- The zero value a freshly constructed field starts with. -/
def zeroVal : FieldKind → FieldVal
  | .value => .valueV none
  | .valueSeq => .valueSeqV none
  | .iface => .itemV none
  | .ifaceSlice => .itemSeqV none
  | .scalarSlice => .scalarV none
  | .scalar => .scalarV none

/-- The wire key of a field: the json tag when present, the Go field name
otherwise (source lines 55-61; the skip sentinel is handled before this). -/
def resolveKey (spec : FieldSpec) : String :=
  if spec.tag = "" then spec.fname else spec.tag

/-- Delete a key from the decoded top-level map (delete(m, "@type")). -/
def eraseKey (m : List (String × JSON)) (k : String) : List (String × JSON) :=
  m.filter (fun kv => kv.1 ≠ k)

/-- json.Unmarshal of a raw message into a Go string variable: a JSON
string yields its text, JSON null leaves the variable at its zero value
(the empty string), anything else is an encoding/json error. -/
def jsonToGoString : JSON → Except DErr String
  | .str s => .ok s
  | .null => .ok ""
  | _ => .error (.json "cannot unmarshal value into Go string")

/-- Sequence a fallible map over a list, stopping at the first error. -/
def mapExcept (f : α → Except ε β) : List α → Except ε (List β)
  | [] => .ok []
  | x :: xs =>
    match f x with
    | .error e => .error e
    | .ok y =>
      match mapExcept f xs with
      | .error e => .error e
      | .ok ys => .ok (y :: ys)

/-- json.Unmarshal of a raw message into a Go interface variable.  In Go
this is total on well-formed input; the model makes it structural in a
fuel argument (so that it reduces in the kernel) and reports exhaustion as
the distinguished model-artifact error DErr.fuel, never as a silently
truncated value.  Every statement below either quantifies over the fuel or
supplies ample concrete fuel, so no result depends on the artifact. -/
def jsonToAnyE : ℕ → JSON → Except DErr GoAny
  | 0, _ => .error .fuel
  | fuel + 1, j =>
    match j with
    | .str s => .ok (.str s)
    | .num q => .ok (.float q)
    | .bool b => .ok (.bool b)
    | .null => .ok .null
    | .arr xs =>
      match mapExcept (fun x => jsonToAnyE fuel x) xs with
      | .error e => .error e
      | .ok ys => .ok (.arr ys)
    | .obj kvs =>
      match mapExcept (fun kv => match jsonToAnyE fuel kv.2 with
                                 | .error e => .error e
                                 | .ok a => .ok (kv.1, a)) kvs with
      | .error e => .error e
      | .ok pairs => .ok (.obj pairs)

/-- The body of the field loop of Unmarshal (source lines 53-133) for one
field, with the recursive Unmarshal passed in as dec.

The quad.Value case keeps the source's slip: after checking with
json.Unmarshal that the raw sub-value is decodable, it hands parseValue
the raw message v itself (source line 74), whose dynamic type matches no
case of parseValue's type switch, rather than the decoded value.

The quad.Value-slice case mirrors lines 80-95: the elements of the
decoded Go slice of interface are parsed in order and appended to a slice
that starts nil, so an empty JSON array leaves the field nil.

The interface-slice case mirrors lines 111-127: a JSON array (even empty)
yields a freshly made, non-nil slice; JSON null leaves arr nil and the
field untouched. -/
def decodeFieldWith (dec : JSON → Except DErr Item)
    (toAny : JSON → Except DErr GoAny) (m : List (String × JSON))
    (spec : FieldSpec) : Except DErr FieldVal :=
  if spec.tag = "-" then .ok (zeroVal spec.kind)
  else
    match List.lookup (resolveKey spec) m with
    | none => .ok (zeroVal spec.kind)
    | some v =>
      match spec.kind with
      | .value =>
        match parseValue (GoAny.raw v) with
        | .error e => .error e
        | .ok value => .ok (.valueV (some value))
      | .valueSeq =>
        match v with
        | .null => .ok (.valueSeqV none)
        | .arr xs =>
          match mapExcept (fun x =>
              match toAny x with
              | .error e => .error e
              | .ok a => parseValue a) xs with
          | .error e => .error e
          | .ok values => .ok (.valueSeqV (if xs.isEmpty then none else some values))
        | _ => .error (.json "cannot unmarshal value into Go slice of interface")
      | .iface =>
        match dec v with
        | .error e => .error e
        | .ok s => .ok (.itemV (some s))
      | .ifaceSlice =>
        match v with
        | .null => .ok (.itemSeqV none)
        | .arr xs =>
          match mapExcept dec xs with
          | .error e => .error e
          | .ok items => .ok (.itemSeqV (some items))
        | _ => .error (.json "cannot unmarshal value into Go slice of raw messages")
      | .scalarSlice => .ok (.scalarV (some v))
      | .scalar => .ok (.scalarV (some v))

/-- Unmarshal of source lines 38-136.  Reads the top-level object into a
map, extracts and deletes the discriminator, looks the discriminator up in
the registry, then decodes every declared field of the found type in
order.  The Go function recurses on nested polymorphic sub-objects; the
model makes the recursion structural in an explicit fuel argument, which
is consumed at nested decodes and at interface-value conversions and whose
exhaustion is reported as the distinguished artifact error DErr.fuel (the
Go code has no such failure; any fuel at least the nesting depth of the
input is enough, and every theorem below either holds for all fuel or
supplies ample concrete fuel). -/
def Unmarshal : ℕ → Registry → JSON → Except DErr Item
  | 0, _, _ => .error .fuel
  | fuel + 1, reg, j =>
    match j with
    | .obj m =>
      match List.lookup "@type" m with
      | none => .error (.json "unexpected end of JSON input")
      | some tv =>
        match jsonToGoString tv with
        | .error e => .error e
        | .ok typ =>
          match List.lookup typ reg with
          | none => .error (.unsupportedItem typ)
          | some tp =>
            match mapExcept
                (decodeFieldWith (fun v => Unmarshal fuel reg v) (jsonToAnyE fuel)
                  (eraseKey m "@type"))
                tp.fields with
            | .error e => .error e
            | .ok fields => .ok (Item.mk tp.typeName fields)
    | .null => .error (.json "unexpected end of JSON input")
    | _ => .error (.json "cannot unmarshal value into Go map")

/-- The rational 3.5, built in reduced form so that it computes. -/
def q35 : ℚ := ⟨7, 2, by norm_num, by norm_num⟩

/-- The rational 0.0078125 (the float64 1/128, an exact tie at the sixth
decimal), built in reduced form so that it computes. -/
def q78 : ℚ := ⟨1, 128, by norm_num, by norm_num⟩

/-! Concrete registered types used by witnesses and counterexamples. -/

/-- A type with a single quad.Value field. -/
def personT : GoType := ⟨0, true, "Person", [⟨"Val", "val", .value⟩]⟩

/-- Another type with a single quad.Value field. -/
def vT : GoType := ⟨1, true, "V", [⟨"V", "v", .value⟩]⟩

/-- A type with a single slice-of-quad.Value field. -/
def seqT : GoType := ⟨2, true, "S", [⟨"Vals", "vals", .valueSeq⟩]⟩

/-- A type with a single polymorphic-sequence field. -/
def fooT : GoType := ⟨3, true, "Foo", [⟨"Children", "children", .ifaceSlice⟩]⟩

/-- A type with a skipped field (json tag "-") and a plain scalar field. -/
def wT : GoType := ⟨4, true, "W", [⟨"Secret", "-", .scalar⟩, ⟨"Name", "", .scalar⟩]⟩

/-! Supporting lemmas about the decimal rendering. -/

lemma digitChar_isDigit {d : ℕ} (h : d < 10) : (digitChar d).isDigit = true := by
  interval_cases d <;> decide

lemma natCharsAux_isDigit : ∀ fuel n c, c ∈ natCharsAux fuel n → c.isDigit = true := by
  intro fuel
  induction fuel with
  | zero => intro n c hc; simp [natCharsAux] at hc
  | succ fuel ih =>
    intro n c hc
    by_cases hn : n = 0
    · simp [natCharsAux, hn] at hc
    · simp only [natCharsAux, hn, if_false, List.mem_append, List.mem_singleton,
        ite_false] at hc
      rcases hc with hc | hc
      · exact ih _ _ hc
      · subst hc; exact digitChar_isDigit (Nat.mod_lt _ (by norm_num))

lemma natChars_isDigit {n : ℕ} {c : Char} (hc : c ∈ natChars n) : c.isDigit = true := by
  by_cases hn : n = 0
  · simp [natChars, hn] at hc; subst hc; decide
  · simp only [natChars, hn, ite_false] at hc
    exact natCharsAux_isDigit _ _ _ hc

lemma natCharsAux_length_le : ∀ fuel n d, n < 10 ^ d → (natCharsAux fuel n).length ≤ d := by
  intro fuel
  induction fuel with
  | zero => intro n d _; simp [natCharsAux]
  | succ fuel ih =>
    intro n d h
    by_cases hn : n = 0
    · simp [natCharsAux, hn]
    · have hd : 1 ≤ d := by
        by_contra hcon
        have hd0 : d = 0 := by omega
        subst hd0
        simp at h
        omega
      have hdiv : n / 10 < 10 ^ (d - 1) := by
        rw [Nat.div_lt_iff_lt_mul (by norm_num)]
        have h10 : (10 : ℕ) ^ d = 10 ^ (d - 1) * 10 := by
          conv_lhs => rw [show d = (d - 1) + 1 by omega]
          rw [pow_succ]
        omega
      have hrec := ih (n / 10) (d - 1) hdiv
      simp only [natCharsAux, hn, ite_false, List.length_append, List.length_singleton]
      omega

lemma natChars_length_le {n d : ℕ} (hd : 1 ≤ d) (h : n < 10 ^ d) :
    (natChars n).length ≤ d := by
  by_cases hn : n = 0
  · simp [natChars, hn]; omega
  · simp only [natChars, hn, ite_false]
    exact natCharsAux_length_le _ _ _ h

lemma pad6chars_length {k : ℕ} (h : k < 1000000) : (pad6chars k).length = 6 := by
  have h6 : (natChars k).length ≤ 6 := by
    refine natChars_length_le (by norm_num) ?_
    norm_num
    omega
  simp only [pad6chars, List.length_append, List.length_replicate]
  omega

lemma f6frac_length (q : ℚ) : (f6frac q).length = 6 := by
  have hlt : f6n q % 1000000 < 1000000 := Nat.mod_lt _ (by norm_num)
  show (pad6chars (f6n q % 1000000)).length = 6
  exact pad6chars_length hlt

lemma f6frac_all_digit (q : ℚ) : (f6frac q).data.all Char.isDigit = true := by
  show (pad6chars (f6n q % 1000000)).all Char.isDigit = true
  rw [List.all_eq_true]
  intro c hc
  rcases List.mem_append.1 hc with hc | hc
  · rw [List.eq_of_mem_replicate hc]; decide
  · exact natChars_isDigit hc

lemma isDigit_bne_dot {c : Char} (h : c.isDigit = true) : (c != '.') = true := by
  rcases eq_or_ne c '.' with rfl | hne
  · exact absurd h (by decide)
  · simp [bne_iff_ne, hne]

lemma f6int_no_dot (q : ℚ) : (f6int q).data.all (fun c => c != '.') = true := by
  show (((if q < 0 then ['-'] else []) ++ natChars (f6n q / 1000000)).all
    (fun c => c != '.')) = true
  rw [List.all_eq_true]
  intro c hc
  rcases List.mem_append.1 hc with hc | hc
  · by_cases hq : q < 0
    · simp [hq] at hc; subst hc; decide
    · simp [hq] at hc
  · exact isDigit_bne_dot (natChars_isDigit hc)

/-! Supporting lemmas about the decoder. -/

lemma mapExcept_ok_get {f : α → Except ε β} :
    ∀ {l : List α} {l' : List β}, mapExcept f l = .ok l' →
      ∀ {i : ℕ} {a : α}, l.get? i = some a →
        ∃ b, f a = .ok b ∧ l'.get? i = some b := by
  intro l
  induction l with
  | nil => intro l' _ i a ha; simp at ha
  | cons x xs ih =>
    intro l' h i a ha
    cases hfx : f x with
    | error e => simp [mapExcept, hfx] at h
    | ok y =>
      cases hrest : mapExcept f xs with
      | error e => simp [mapExcept, hfx, hrest] at h
      | ok ys =>
        simp only [mapExcept, hfx, hrest] at h
        cases h
        cases i with
        | zero =>
          simp only [List.get?] at ha
          cases ha
          exact ⟨y, hfx, rfl⟩
        | succ i =>
          simp only [List.get?] at ha ⊢
          exact ih hrest ha

/-- Pull apart a successful Unmarshal run: the item is built for the type
found in the registry under the wire discriminator, from the field values
the field loop produced. -/
lemma unmarshal_ok {fuel : ℕ} {reg : Registry} {m : List (String × JSON)}
    {typ : String} {tp : GoType} {item : Item}
    (h1 : List.lookup "@type" m = some (JSON.str typ))
    (h2 : List.lookup typ reg = some tp)
    (h : Unmarshal (fuel + 1) reg (.obj m) = .ok item) :
    ∃ fvs,
      mapExcept
        (decodeFieldWith (fun v => Unmarshal fuel reg v) (jsonToAnyE fuel)
          (eraseKey m "@type")) tp.fields = .ok fvs ∧
      item = Item.mk tp.typeName fvs := by
  rw [Unmarshal, h1] at h
  simp only [jsonToGoString] at h
  rw [h2] at h
  dsimp only at h
  cases hmap : mapExcept
      (decodeFieldWith (fun v => Unmarshal fuel reg v) (jsonToAnyE fuel)
        (eraseKey m "@type")) tp.fields with
  | error e => rw [hmap] at h; cases h
  | ok fvs =>
    rw [hmap] at h
    cases h
    exact ⟨fvs, rfl, rfl⟩

/-! Claim theorems. -/

/-- C3: the claim says a JSON object whose "@value" and "@language" keys
hold strings parses to a LangString whose text equals the "@value"
string.  The code instead substitutes the literal placeholder text
"value" (source line 164): at the concrete input below the decoded text
is "value", not "hello".  Code bug, also flagged in the spec's design
notes. -/
theorem c3_langstring_placeholder :
    parseValue (.obj [("@value", .str "hello"), ("@language", .str "en")]) =
      .ok (.langString "value" "en") ∧
    QuadValue.langString "value" "en" ≠ QuadValue.langString "hello" "en" :=
  ⟨rfl, by decide⟩

/-- C5: every JSON number reaches parseValue as a float64, and parseValue
renders it with datatype xsd:float and the fixed percent-f format: an
integer part without any dot, then a dot, then exactly six decimal
digits; in particular 3.5 renders as "3.500000".  The last conjunct pins
the rounding at an exact sixth-decimal tie: the float64 0.0078125 renders
as "0.007812" (ties to even), as Go prints it. -/
theorem c5_float_six_fraction_digits :
    (∀ fuel : ℕ, ∀ q : ℚ, jsonToAnyE (fuel + 1) (JSON.num q) = .ok (.float q)) ∧
    (∀ q : ℚ,
      parseValue (.float q) =
        .ok (.typedString (f6int q ++ "." ++ f6frac q) xsdFloat) ∧
      (f6frac q).length = 6 ∧
      (f6frac q).data.all Char.isDigit = true ∧
      (f6int q).data.all (fun c => c != '.') = true) ∧
    (∃ q : ℚ, q = 3.5 ∧
      parseValue (.float q) = .ok (.typedString "3.500000" xsdFloat)) ∧
    (∃ q : ℚ, q = 1 / 128 ∧
      parseValue (.float q) = .ok (.typedString "0.007812" xsdFloat)) := by
  refine ⟨fun fuel q => rfl,
    fun q => ⟨rfl, f6frac_length q, f6frac_all_digit q, f6int_no_dot q⟩,
    ⟨q35, ?_, rfl⟩, ⟨q78, ?_, rfl⟩⟩
  · rw [q35, Rat.mk'_eq_divInt, Rat.divInt_eq_div]
    norm_num
  · rw [q78, Rat.mk'_eq_divInt, Rat.divInt_eq_div]
    norm_num

/-- C6: a wire object whose discriminator names no registered type makes
Unmarshal fail with the unsupported-item error carrying the unknown name;
the error result carries no item, partial or otherwise. -/
theorem c6_unsupported_type (fuel : ℕ) (reg : Registry)
    (m : List (String × JSON)) (typ : String)
    (h1 : List.lookup "@type" m = some (JSON.str typ))
    (h2 : List.lookup typ reg = none) :
    Unmarshal (fuel + 1) reg (.obj m) = .error (.unsupportedItem typ) := by
  rw [Unmarshal, h1]
  simp only [jsonToGoString]
  rw [h2]

theorem c6_witness :
    Unmarshal 1 [("Foo", ⟨0, true, "Foo", []⟩)] (.obj [("@type", .str "Bar")]) =
      .error (.unsupportedItem "Bar") :=
  c6_unsupported_type 0 _ _ "Bar" rfl rfl

/-- C7: registering a second type under an already-registered name fails
on the second Register call (the first succeeds), the failure leaves the
registry exactly as it was after the first call, and the name still maps
to the first registered type. -/
theorem c7_duplicate_registration (st : RegState) (t1 t2 : GoType)
    (h1 : t1.isStruct = true) (h2 : t2.isStruct = true)
    (hn : t2.typeName = t1.typeName)
    (h0 : List.lookup t1.typeName st.typeByName = none) :
    (Register st t1).2 = none ∧
    (Register (Register st t1).1 t2).2 = some "this name was already registered" ∧
    (Register (Register st t1).1 t2).1 = (Register st t1).1 ∧
    List.lookup t1.typeName (Register (Register st t1).1 t2).1.typeByName = some t1 := by
  have hr1 : Register st t1 =
      (⟨(t1.typeName, t1) :: st.typeByName, (t1.tid, t1.typeName) :: st.nameByType⟩, none) := by
    simp [Register, h1, h0]
  have hlook : List.lookup t2.typeName ((t1.typeName, t1) :: st.typeByName) = some t1 := by
    rw [hn]
    simp [List.lookup]
  have hr2 : Register (Register st t1).1 t2 =
      ((Register st t1).1, some "this name was already registered") := by
    rw [hr1]
    simp [Register, h2, hlook]
  refine ⟨by rw [hr1], by rw [hr2], by rw [hr2], ?_⟩
  rw [hr2, hr1]
  simp [List.lookup]

theorem c7_witness :
    (Register ⟨[], []⟩ ⟨0, true, "Foo", []⟩).2 = none ∧
    (Register (Register ⟨[], []⟩ ⟨0, true, "Foo", []⟩).1 ⟨1, true, "Foo", []⟩).2 =
      some "this name was already registered" ∧
    (Register (Register ⟨[], []⟩ ⟨0, true, "Foo", []⟩).1 ⟨1, true, "Foo", []⟩).1 =
      (Register ⟨[], []⟩ ⟨0, true, "Foo", []⟩).1 ∧
    List.lookup "Foo"
      (Register (Register ⟨[], []⟩ ⟨0, true, "Foo", []⟩).1 ⟨1, true, "Foo", []⟩).1.typeByName =
      some ⟨0, true, "Foo", []⟩ :=
  c7_duplicate_registration ⟨[], []⟩ ⟨0, true, "Foo", []⟩ ⟨1, true, "Foo", []⟩ rfl rfl rfl rfl

/-- C8: a field whose json tag is the skip sentinel is never assigned:
whenever decoding succeeds, that field holds its zero value, whatever the
wire object contains under any key, and every field of the result is
exactly what the field decoder produces for its spec. -/
theorem c8_skip_field_stays_zero (fuel : ℕ) (reg : Registry)
    (m : List (String × JSON)) (typ : String) (tp : GoType) (item : Item)
    (i : ℕ) (spec : FieldSpec)
    (h1 : List.lookup "@type" m = some (JSON.str typ))
    (h2 : List.lookup typ reg = some tp)
    (h3 : tp.fields.get? i = some spec)
    (h4 : spec.tag = "-")
    (h5 : Unmarshal (fuel + 1) reg (.obj m) = .ok item) :
    item.fields.get? i = some (zeroVal spec.kind) ∧
    ∀ j spec', tp.fields.get? j = some spec' →
      ∃ fv,
        decodeFieldWith (fun v => Unmarshal fuel reg v) (jsonToAnyE fuel)
          (eraseKey m "@type") spec' = .ok fv ∧
        item.fields.get? j = some fv := by
  obtain ⟨fvs, hmap, hitem⟩ := unmarshal_ok h1 h2 h5
  subst hitem
  constructor
  · obtain ⟨fv, hfv, hget⟩ := mapExcept_ok_get hmap h3
    simp only [decodeFieldWith, h4, if_true, ite_true, Except.ok.injEq] at hfv
    simp only [Item.fields]
    rw [hget, ← hfv]
  · intro j spec' hj
    obtain ⟨fv, hfv, hget⟩ := mapExcept_ok_get hmap hj
    exact ⟨fv, hfv, by simp only [Item.fields]; exact hget⟩

theorem c8_witness :
    (Item.mk "W" [.scalarV none, .scalarV (some (.str "Bob"))]).fields.get? 0 =
      some (zeroVal FieldKind.scalar) :=
  (c8_skip_field_stays_zero 0 [("W", wT)]
    [("@type", .str "W"), ("Secret", .str "x"), ("Name", .str "Bob")] "W" wT
    (Item.mk "W" [.scalarV none, .scalarV (some (.str "Bob"))]) 0
    ⟨"Secret", "-", .scalar⟩ rfl rfl rfl rfl rfl).1

/-- C9: for a polymorphic-sequence field, a present empty JSON array
decodes to a present empty sequence (a non-nil slice), while omitting the
key leaves the field at its zero value (a nil slice); the two results are
distinct. -/
theorem c9_poly_seq_empty_vs_absent (fuel : ℕ) (reg : Registry)
    (m m' : List (String × JSON)) (typ : String) (tp : GoType)
    (item item' : Item) (i : ℕ) (spec : FieldSpec)
    (h1 : List.lookup "@type" m = some (JSON.str typ))
    (h1' : List.lookup "@type" m' = some (JSON.str typ))
    (h2 : List.lookup typ reg = some tp)
    (h3 : tp.fields.get? i = some spec)
    (h4 : spec.kind = .ifaceSlice)
    (h5 : spec.tag ≠ "-")
    (hp : List.lookup (resolveKey spec) (eraseKey m "@type") = some (.arr []))
    (ha : List.lookup (resolveKey spec) (eraseKey m' "@type") = none)
    (h6 : Unmarshal (fuel + 1) reg (.obj m) = .ok item)
    (h6' : Unmarshal (fuel + 1) reg (.obj m') = .ok item') :
    item.fields.get? i = some (.itemSeqV (some [])) ∧
    item'.fields.get? i = some (.itemSeqV none) ∧
    FieldVal.itemSeqV (some ([] : List Item)) ≠ FieldVal.itemSeqV none := by
  obtain ⟨fvs, hmap, hitem⟩ := unmarshal_ok h1 h2 h6
  obtain ⟨fvs', hmap', hitem'⟩ := unmarshal_ok h1' h2 h6'
  subst hitem
  subst hitem'
  refine ⟨?_, ?_, by simp⟩
  · obtain ⟨fv, hfv, hget⟩ := mapExcept_ok_get hmap h3
    simp only [decodeFieldWith, h5, hp, h4, mapExcept, if_false, ite_false,
      Except.ok.injEq] at hfv
    simp only [Item.fields]
    rw [hget, ← hfv]
  · obtain ⟨fv, hfv, hget⟩ := mapExcept_ok_get hmap' h3
    simp only [decodeFieldWith, h5, ha, h4, zeroVal, if_false, ite_false,
      Except.ok.injEq] at hfv
    simp only [Item.fields]
    rw [hget, ← hfv]

theorem c9_witness :
    (Item.mk "Foo" [.itemSeqV (some [])]).fields.get? 0 =
      some (.itemSeqV (some [])) ∧
    (Item.mk "Foo" [.itemSeqV none]).fields.get? 0 = some (.itemSeqV none) ∧
    FieldVal.itemSeqV (some ([] : List Item)) ≠ FieldVal.itemSeqV none :=
  c9_poly_seq_empty_vs_absent 0 [("Foo", fooT)]
    [("@type", .str "Foo"), ("children", .arr [])] [("@type", .str "Foo")]
    "Foo" fooT (Item.mk "Foo" [.itemSeqV (some [])])
    (Item.mk "Foo" [.itemSeqV none]) 0 ⟨"Children", "children", .ifaceSlice⟩
    rfl rfl rfl rfl rfl (by decide) rfl rfl rfl rfl

/-- C10: for a slice-of-quad.Value field, a present empty JSON array
yields exactly the zero value of the field (the appended-to slice starts
nil and no element is appended), so the decoded field is indistinguishable
from one whose key was omitted. -/
theorem c10_value_seq_empty_is_absent (fuel : ℕ) (reg : Registry)
    (m m' : List (String × JSON)) (typ : String) (tp : GoType)
    (item item' : Item) (i : ℕ) (spec : FieldSpec)
    (h1 : List.lookup "@type" m = some (JSON.str typ))
    (h1' : List.lookup "@type" m' = some (JSON.str typ))
    (h2 : List.lookup typ reg = some tp)
    (h3 : tp.fields.get? i = some spec)
    (h4 : spec.kind = .valueSeq)
    (h5 : spec.tag ≠ "-")
    (hp : List.lookup (resolveKey spec) (eraseKey m "@type") = some (.arr []))
    (ha : List.lookup (resolveKey spec) (eraseKey m' "@type") = none)
    (h6 : Unmarshal (fuel + 1) reg (.obj m) = .ok item)
    (h6' : Unmarshal (fuel + 1) reg (.obj m') = .ok item') :
    item.fields.get? i = some (.valueSeqV none) ∧
    item'.fields.get? i = some (.valueSeqV none) ∧
    zeroVal FieldKind.valueSeq = FieldVal.valueSeqV none := by
  obtain ⟨fvs, hmap, hitem⟩ := unmarshal_ok h1 h2 h6
  obtain ⟨fvs', hmap', hitem'⟩ := unmarshal_ok h1' h2 h6'
  subst hitem
  subst hitem'
  refine ⟨?_, ?_, rfl⟩
  · obtain ⟨fv, hfv, hget⟩ := mapExcept_ok_get hmap h3
    simp only [decodeFieldWith, h5, hp, h4, mapExcept, List.isEmpty_nil,
      if_false, ite_false, ite_true, Except.ok.injEq] at hfv
    simp only [Item.fields]
    rw [hget, ← hfv]
  · obtain ⟨fv, hfv, hget⟩ := mapExcept_ok_get hmap' h3
    simp only [decodeFieldWith, h5, ha, h4, zeroVal, if_false, ite_false,
      Except.ok.injEq] at hfv
    simp only [Item.fields]
    rw [hget, ← hfv]

theorem c10_witness :
    (Item.mk "S" [.valueSeqV none]).fields.get? 0 = some (.valueSeqV none) ∧
    (Item.mk "S" [.valueSeqV none]).fields.get? 0 = some (.valueSeqV none) ∧
    zeroVal FieldKind.valueSeq = FieldVal.valueSeqV none :=
  c10_value_seq_empty_is_absent 0 [("S", seqT)]
    [("@type", .str "S"), ("vals", .arr [])] [("@type", .str "S")]
    "S" seqT (Item.mk "S" [.valueSeqV none]) (Item.mk "S" [.valueSeqV none]) 0
    ⟨"Vals", "vals", .valueSeq⟩
    rfl rfl rfl rfl rfl (by decide) rfl rfl rfl rfl

/-- C1: the claim says every valid wire encoding of a registered shape
decodes successfully into an item whose Type matches the registration
name.  The code fails on valid encodings that supply any quad.Value
field, because the field loop hands parseValue the raw message itself
(source line 74), which matches no case of its type switch: here Person
is registered successfully, its encoding supplies only the declared value
field with a well-formed string value, and Unmarshal errors instead of
succeeding.  Code bug (same slip as C2). -/
theorem c1_valid_encoding_fails_to_decode :
    (Register ⟨[], []⟩ personT).2 = none ∧
    Unmarshal 1 (Register ⟨[], []⟩ personT).1.typeByName
      (.obj [("@type", .str "Person"), ("val", .str "Alice")]) =
      .error (.cannotParse (.raw (.str "Alice"))) :=
  ⟨rfl, rfl⟩

/-- C2: the claim says a present quad.Value field is decoded by passing
the raw sub-value to the value decoder and storing the result, a JSON
string becoming a plain string.  The code hands parseValue the raw
message (dynamic type json.RawMessage) rather than the value decoded into
the interface variable, so parseValue's type switch matches nothing and
every present quad.Value field aborts decoding with the cannot-parse
error; the string the claim expects is what parseValue would have
produced for the decoded value.  Code bug: the decoded variable is
computed and then unused, and the parallel slice branch parses decoded
elements. -/
theorem c2_value_field_raw_message_bug :
    Unmarshal 1 [("V", vT)] (.obj [("@type", .str "V"), ("v", .str "hello")]) =
      .error (.cannotParse (.raw (.str "hello"))) ∧
    parseValue (.str "hello") = .ok (.str "hello") :=
  ⟨rfl, rfl⟩

/-- C4: the claim says a JSON integer decodes to a typed literal with the
decimal text and datatype xsd:integer.  encoding/json decodes every JSON
number into a float64, so the int64 case of parseValue is unreachable
from JSON input and the element 42 decodes to the typed literal
"42.000000" of datatype xsd:float; moreover even the int64 case itself
would render the Go rune conversion of 42 (the single character "*"),
not the decimal "42".  Code bug. -/
theorem c4_integer_decodes_as_float :
    Unmarshal 2 [("S", seqT)]
      (.obj [("@type", .str "S"), ("vals", .arr [.num 42])]) =
      .ok (Item.mk "S" [.valueSeqV (some [.typedString "42.000000" xsdFloat])]) ∧
    parseValue (.int 42) = .ok (.typedString "*" xsdInt) ∧
    QuadValue.typedString "42.000000" xsdFloat ≠ QuadValue.typedString "42" xsdInt :=
  ⟨rfl, rfl, by decide⟩
